import Mathlib

/-!
Verification of the savegame-reader repository (src/reader.rs, src/main.rs)
against its natural-language specification.

The Rust code is shallowly embedded: bytes are `Nat` values (< 256 for real
inputs), byte buffers are `List Nat`, the cursor type `DataReader` carries the
buffer and a position, and every Rust `panic!`/`unwrap` failure is an explicit
`Except RsError` error value labelled by the panic site.
-/

deriving instance DecidableEq for Except

/-- Error labels, one per panic site in reader.rs:
out-of-bounds slice index or usize underflow, the gamma five-prefix panic,
the unknown-value-type panic, `String::from_utf8(..).unwrap()`,
the unknown-chunk-type panic, and the Array/SparseArray unsupported panics. -/
inductive RsError where
  | outOfBounds
  | malformedGamma
  | unknownFieldType
  | invalidString
  | unknownChunkKind
  | unsupportedChunkKind
deriving DecidableEq, Repr

/-- `DataReader` (reader.rs lines 97-101): a borrowed byte buffer plus a
cursor position. The Rust `size` field is always `data.len()`, so it is kept
as the derived quantity `DataReader.size` rather than a stored field. -/
structure DataReader where
  data : List Nat
  position : Nat
deriving DecidableEq, Repr

def DataReader.size (r : DataReader) : Nat := r.data.length

/-- `DataReader::load` (reader.rs lines 155-162):
`if size == 0 { return vec![] }; let size = min(size, self.size - start);
self.position = start; self.data[start..start+size].to_vec()`.
When `start > self.size` the usize subtraction `self.size - start` panics
(debug overflow check; in release the wrapped value makes the slice index
panic instead), modeled as `.error .outOfBounds`. Otherwise the read is
silently truncated to `min n (len - start)` bytes. -/
def DataReader.load (r : DataReader) (start n : Nat) :
    Except RsError (List Nat × DataReader) :=
  if n = 0 then .ok ([], r)
  else if r.data.length < start then .error .outOfBounds
  else
    .ok ((r.data.drop start).take (min n (r.data.length - start)),
      { r with position := start })

/-- `DataReader::read_byte` (reader.rs lines 164-168): `load(position, 1)`,
advance by 1, then `data[0]` -- which panics on the empty vector returned
when the cursor sits exactly at the end of the buffer. -/
def DataReader.read_byte (r : DataReader) : Except RsError (Nat × DataReader) :=
  match r.load r.position 1 with
  | .error e => .error e
  | .ok (bs, r1) =>
    match bs with
    | [] => .error .outOfBounds
    | b :: _ => .ok (b, { r1 with position := r1.position + 1 })

/-- `DataReader::read_bytes` (reader.rs lines 170-174): `load(position, size)`
then `position += size` -- the full requested size, even when `load`
truncated the returned data. -/
def DataReader.read_bytes (r : DataReader) (n : Nat) :
    Except RsError (List Nat × DataReader) :=
  match r.load r.position n with
  | .error e => .error e
  | .ok (bs, r1) => .ok (bs, { r1 with position := r1.position + n })

/-- `DataReader::read_leftover_bytes` (reader.rs lines 176-180):
`load(position, size - position)` then `position = size`. The argument
`self.size - self.position` itself underflows (panics) when the position has
been advanced past the end. -/
def DataReader.read_leftover_bytes (r : DataReader) :
    Except RsError (List Nat × DataReader) :=
  if r.data.length < r.position then .error .outOfBounds
  else
    match r.load r.position (r.data.length - r.position) with
    | .error e => .error e
    | .ok (bs, r1) => .ok (bs, { r1 with position := r1.data.length })

/-- `DataReader::read_gamma` (reader.rs lines 114-151). Returns the decoded
value and the byte count, exactly as the Rust `(u32, u8)` pair. All u32
arithmetic is exact in `Nat` because each operand fits in 32 bits when the
inputs are bytes. The final `panic!` is the malformed-gamma case. -/
def DataReader.read_gamma (r : DataReader) :
    Except RsError ((Nat × Nat) × DataReader) :=
  match r.read_byte with
  | .error e => .error e
  | .ok (byte, r) =>
    if byte &&& 0b10000000 = 0 then .ok ((byte, 1), r)
    else if byte &&& 0b01000000 = 0 then
      match r.read_byte with
      | .error e => .error e
      | .ok (byte2, r) => .ok ((((byte &&& 0b00111111) <<< 8) ||| byte2, 2), r)
    else if byte &&& 0b00100000 = 0 then
      match r.read_byte with
      | .error e => .error e
      | .ok (byte2, r) =>
        match r.read_byte with
        | .error e => .error e
        | .ok (byte3, r) =>
          .ok ((((byte &&& 0b00011111) <<< 16) ||| (byte2 <<< 8) ||| byte3, 3), r)
    else if byte &&& 0b00010000 = 0 then
      match r.read_byte with
      | .error e => .error e
      | .ok (byte2, r) =>
        match r.read_byte with
        | .error e => .error e
        | .ok (byte3, r) =>
          match r.read_byte with
          | .error e => .error e
          | .ok (byte4, r) =>
            .ok ((((byte &&& 0b00001111) <<< 24) ||| (byte2 <<< 16) |||
              (byte3 <<< 8) ||| byte4, 4), r)
    else if byte &&& 0b00001000 = 0 then
      match r.read_byte with
      | .error e => .error e
      | .ok (byte2, r) =>
        match r.read_byte with
        | .error e => .error e
        | .ok (byte3, r) =>
          match r.read_byte with
          | .error e => .error e
          | .ok (byte4, r) =>
            match r.read_byte with
            | .error e => .error e
            | .ok (byte5, r) =>
              .ok (((byte2 <<< 24) ||| (byte3 <<< 16) ||| (byte4 <<< 8) |||
                byte5, 5), r)
    else .error .malformedGamma

/-- `Value` (reader.rs lines 207-220): the twelve field types minus the
absent tag-0 case, exactly the eleven Rust variants. -/
inductive Value where
  | i8 | u8 | i16 | u16 | i32 | u32 | i64 | u64 | stringID | string | struct
deriving DecidableEq, Repr

/-- The `match first << 4 >> 4 { 1 => I8, ... , _ => panic }` table from
`read_table_entries` (reader.rs lines 250-266), with `none` for the panic. -/
def valueOfNibble (n : Nat) : Option Value :=
  match n with
  | 1 => some .i8
  | 2 => some .u8
  | 3 => some .i16
  | 4 => some .u16
  | 5 => some .i32
  | 6 => some .u32
  | 7 => some .i64
  | 8 => some .u64
  | 9 => some .stringID
  | 10 => some .string
  | 11 => some .struct
  | _ => none

/-- `HashMap<String, (Value, bool)>` modeled as an association list with
replace-on-insert, keys being the raw UTF-8 byte strings. The real HashMap
exposes no iteration order; the theorems below rely only on
order-independent facts (membership, size, value per key), except where a
comment notes that a single-entry map makes the order immaterial. -/
abbrev Entries := List (List Nat × (Value × Bool))

/-- `HashMap::insert`: replace the value of an existing key, else add. -/
def hmInsert (m : Entries) (k : List Nat) (v : Value × Bool) : Entries :=
  match m with
  | [] => [(k, v)]
  | (k0, v0) :: rest =>
    if k0 = k then (k0, v) :: rest else (k0, v0) :: hmInsert rest k v

/-- Modelled from the spec: UTF-8 continuation byte, `0x80..0xBF`. Part of
the `String::from_utf8` validation (Rust standard library, not in src/). -/
def utf8Cont (b : Nat) : Bool := decide (128 ≤ b ∧ b ≤ 191)

/-- Modelled from the spec: validity of a byte sequence as UTF-8, the check
performed by `String::from_utf8(..)` before `.unwrap()` (Rust standard
library, not in src/; the spec prescribes "fails with InvalidEncoding on
invalid UTF-8"). Standard RFC 3629 ranges. -/
def utf8Valid : List Nat → Bool
  | [] => true
  | b :: rest =>
    if b ≤ 127 then utf8Valid rest
    else if 194 ≤ b ∧ b ≤ 223 then
      match rest with
      | c1 :: r => utf8Cont c1 && utf8Valid r
      | [] => false
    else if b = 224 then
      match rest with
      | c1 :: c2 :: r => decide (160 ≤ c1 ∧ c1 ≤ 191) && utf8Cont c2 && utf8Valid r
      | _ => false
    else if 225 ≤ b ∧ b ≤ 236 then
      match rest with
      | c1 :: c2 :: r => utf8Cont c1 && utf8Cont c2 && utf8Valid r
      | _ => false
    else if b = 237 then
      match rest with
      | c1 :: c2 :: r => decide (128 ≤ c1 ∧ c1 ≤ 159) && utf8Cont c2 && utf8Valid r
      | _ => false
    else if 238 ≤ b ∧ b ≤ 239 then
      match rest with
      | c1 :: c2 :: r => utf8Cont c1 && utf8Cont c2 && utf8Valid r
      | _ => false
    else if b = 240 then
      match rest with
      | c1 :: c2 :: c3 :: r =>
        decide (144 ≤ c1 ∧ c1 ≤ 191) && utf8Cont c2 && utf8Cont c3 && utf8Valid r
      | _ => false
    else if 241 ≤ b ∧ b ≤ 243 then
      match rest with
      | c1 :: c2 :: c3 :: r => utf8Cont c1 && utf8Cont c2 && utf8Cont c3 && utf8Valid r
      | _ => false
    else if b = 244 then
      match rest with
      | c1 :: c2 :: c3 :: r =>
        decide (128 ≤ c1 ∧ c1 ≤ 143) && utf8Cont c2 && utf8Cont c3 && utf8Valid r
      | _ => false
    else false

/-- The loop body of `DataHandler::read_table_entries` (reader.rs lines
241-273), with an explicit fuel bound on the number of iterations. Each
iteration consumes at least the tag byte while the position is inside the
buffer, so `r.data.length + 1` fuel always suffices; this is proved in
`read_table_entries_go_fuel_irrelevant`, which shows the result is the same
for every sufficient fuel. The fuel-exhausted result `.error .outOfBounds`
coincides with what the next `read_byte` would return in the only reachable
case (position past the end of the buffer).
Loop body: read the tag byte; `0` breaks returning the accumulated map;
otherwise `is_gamma = first & 0b0001_0000 == 0b0001_0000`, the low nibble
`first << 4 >> 4` (u8 arithmetic: `(first <<< 4) % 256 >>> 4`) selects the
`Value` or panics, a gamma length and that many key bytes are read, the key
is UTF-8-decoded, and `entries.insert(key, (key_type, is_gamma))` runs. -/
def read_table_entries_go (fuel : Nat) (entries : Entries) (r : DataReader) :
    Except RsError (Entries × DataReader) :=
  match fuel with
  | 0 => .error .outOfBounds
  | fuel + 1 =>
    match r.read_byte with
    | .error e => .error e
    | .ok (first, r) =>
      if first = 0 then .ok (entries, r)
      else
        let is_gamma : Bool := first &&& 0b00010000 == 0b00010000
        match valueOfNibble (((first <<< 4) % 256) >>> 4) with
        | none => .error .unknownFieldType
        | some key_type =>
          match r.read_gamma with
          | .error e => .error e
          | .ok ((second, _), r) =>
            match r.read_bytes second with
            | .error e => .error e
            | .ok (key, r) =>
              if utf8Valid key then
                read_table_entries_go fuel
                  (hmInsert entries key (key_type, is_gamma)) r
              else .error .invalidString

/-- `DataHandler::read_table_entries`: run the loop with sufficient fuel. -/
def read_table_entries (r : DataReader) : Except RsError (Entries × DataReader) :=
  read_table_entries_go (r.data.length + 1) [] r

/-- `FieldDef` as the spec's data model names it: one schema field. -/
structure FieldDef where
  name : List Nat
  type : Value
  is_list : Bool
deriving DecidableEq, Repr

/-- Specification-side definition (for the refinement comparison of claim
C3): the same traversal as `read_table_entries_go`, accepting and rejecting
exactly the same byte streams, but returning the fields as an ordered
sequence in on-disk declaration order -- the "ordered sequence of FieldDef"
the spec asserts -- instead of inserting them into a hash map. -/
def readFieldsInOrder_go (fuel : Nat) (r : DataReader) :
    Except RsError (List FieldDef × DataReader) :=
  match fuel with
  | 0 => .error .outOfBounds
  | fuel + 1 =>
    match r.read_byte with
    | .error e => .error e
    | .ok (first, r) =>
      if first = 0 then .ok ([], r)
      else
        let is_gamma : Bool := first &&& 0b00010000 == 0b00010000
        match valueOfNibble (((first <<< 4) % 256) >>> 4) with
        | none => .error .unknownFieldType
        | some key_type =>
          match r.read_gamma with
          | .error e => .error e
          | .ok ((second, _), r) =>
            match r.read_bytes second with
            | .error e => .error e
            | .ok (key, r) =>
              if utf8Valid key then
                match readFieldsInOrder_go fuel r with
                | .error e => .error e
                | .ok (l, r) => .ok (⟨key, key_type, is_gamma⟩ :: l, r)
              else .error .invalidString

/-- Ordered-sequence parse of a whole field list (specification side). -/
def readFieldsInOrder (r : DataReader) : Except RsError (List FieldDef × DataReader) :=
  readFieldsInOrder_go (r.data.length + 1) r

/-- `TableType` (reader.rs lines 222-226). The Rust enum has a recursive
`TableType(Box<TableType>)` variant, but the code only ever constructs the
`HashMap` variant (reader.rs line 286), so only it is modeled. -/
inductive TableType where
  | hashMap : Entries → TableType
deriving DecidableEq, Repr

/-- Iteration of `for (key, (key_type, _)) in tables.iter()` inside
`read_subtables` (reader.rs lines 277-285): for every Struct-typed entry,
one flat `read_table_entries` pass is run on the shared reader and its
result is dropped (`let table = ...` is unused). Rust's HashMap iterates in
an unspecified order; it is modeled as the list order of the association
list, and the demonstration theorem uses a single-entry map, for which
every iteration order coincides. -/
def read_subtables_go (r : DataReader) : Entries → Except RsError DataReader
  | [] => .ok r
  | (_, (key_type, _)) :: rest =>
    if key_type = Value.struct then
      match read_table_entries r with
      | .error e => .error e
      | .ok (_table, r1) => read_subtables_go r1 rest
    else read_subtables_go r rest

/-- `DataHandler::read_subtables` (reader.rs lines 275-287): after the
per-struct-field flat reads, it returns `TableType::HashMap(tables.clone())`
-- the parent's own entries, with every nested result discarded. -/
def read_subtables (r : DataReader) (tables : Entries) :
    Except RsError (TableType × DataReader) :=
  match read_subtables_go r tables with
  | .error e => .error e
  | .ok r1 => .ok (TableType.hashMap tables, r1)

/-- `DataHandler::read_table_header` (reader.rs lines 289-293): just
`read_table_entries` plus a `println!` (a side effect with no bearing on
the returned value, dropped here). -/
def read_table_header (r : DataReader) : Except RsError (Entries × DataReader) :=
  read_table_entries r

/-- `DataHandler::handle_riff` (reader.rs lines 295-297): `Vec::new()`. -/
def handle_riff : List Nat := []

/-- `DataHandler::handle_sparse_table` (reader.rs lines 315-317): `Vec::new()`. -/
def handle_sparse_table : List Nat := []

/-- `DataHandler::handle_table` (reader.rs lines 299-313): gamma header
size, header bytes (silently truncated like every `read_bytes`), a fresh
`DataReader::new(&headers)` over the header block, `read_table_header` on
it, and the raw header bytes as the returned chunk data. The data block is
never read (the corresponding lines are commented out in the source), and
`read_subtables` is never invoked. -/
def handle_table (r : DataReader) : Except RsError (List Nat × DataReader) :=
  match r.read_gamma with
  | .error e => .error e
  | .ok ((header_size, _), r) =>
    match r.read_bytes header_size with
    | .error e => .error e
    | .ok (headers, r) =>
      match read_table_header ⟨headers, 0⟩ with
      | .error e => .error e
      | .ok _ => .ok (headers, r)

/-- `DataHandlerChunks` (reader.rs lines 198-205). -/
inductive DataHandlerChunks where
  | riff | array | sparseArray | table | sparseTable
deriving DecidableEq, Repr

/-- `SavegameChunk` (reader.rs lines 191-196); `label` holds the four label
bytes after the `String::from_utf8` check. -/
structure SavegameChunk where
  label : List Nat
  chunk_type : DataHandlerChunks
  data : List Nat
deriving DecidableEq, Repr

/-- `DataHandler::read_chunk` (reader.rs lines 321-347): 4 label bytes
(truncated silently near the end of the buffer, like every `read_bytes`),
one kind byte mapped by `match` with tags 0-4 (`panic!("Unknown chunk
type")` otherwise), dispatch -- Riff gives `handle_riff()` (an empty
payload, successfully), Array and SparseArray panic as unsupported, Table
runs `handle_table`, SparseTable runs `handle_sparse_table` (empty payload)
-- and finally `String::from_utf8(chunk_label).unwrap()`. -/
def read_chunk (r : DataReader) : Except RsError (SavegameChunk × DataReader) :=
  match r.read_bytes 4 with
  | .error e => .error e
  | .ok (chunk_label, r) =>
    match r.read_byte with
    | .error e => .error e
    | .ok (t, r) =>
      match t with
      | 0 =>
        if utf8Valid chunk_label then
          .ok (⟨chunk_label, .riff, handle_riff⟩, r)
        else .error .invalidString
      | 1 => .error .unsupportedChunkKind
      | 2 => .error .unsupportedChunkKind
      | 3 =>
        match handle_table r with
        | .error e => .error e
        | .ok (d, r) =>
          if utf8Valid chunk_label then
            .ok (⟨chunk_label, .table, d⟩, r)
          else .error .invalidString
      | 4 =>
        if utf8Valid chunk_label then
          .ok (⟨chunk_label, .sparseTable, handle_sparse_table⟩, r)
        else .error .invalidString
      | _ => .error .unknownChunkKind

/-- Compression selector determined by the header magic (reader.rs lines
380-386); `Lzo` ("OTTD") and unknown magics never construct a kind. -/
inductive CompressionKind where
  | none | zlib | lzma
deriving DecidableEq, Repr

/-- `decompress_none` (reader.rs lines 11-13): the identity. -/
def decompress_none (data : List Nat) : List Nat := data

/-- Outcome of `Savegame::load`. In `.ok version kind body`, `body` is the
value stored into `self.data`: for `CompressionKind.none` that is
`decompress_none raw` (the raw payload itself); for zlib/lzma the stored
value is `decompress_zlib/lzma raw` where the decompressors are external
library calls (flate2/xz2, not in src/), so for those kinds `body` here
carries the raw compressed payload that is passed to them. -/
inductive SavegameLoadResult where
  | ok (version : Nat) (kind : CompressionKind) (body : List Nat)
  | unsupportedFormat
  | unknownFormat
  | errShort
deriving DecidableEq, Repr

/-- `Savegame::load` (reader.rs lines 368-387) over the raw file bytes.
The Rust code reads, through a `FileReader` with the same silent
`min`-truncation as `DataReader`: 4 header bytes, 2 version bytes
(`try_into` to `[u8; 2]` -- panics unless exactly 2 bytes were available),
2 skipped bytes, then `read_leftover_bytes` (whose size argument
`self.size - self.position` underflows when the file is shorter than the
8-byte header), and only then matches the magic. Consequently every file
shorter than 8 bytes panics before the magic is examined (lengths 0-5 fail
at the version read, 6-7 at the leftover read), modeled as `.errShort`;
for files of length >= 8 the reads are exact and the magic match decides
the outcome in source order OTTX, OTTZ, OTTN, OTTD, wildcard. -/
def Savegame.load (file : List Nat) : SavegameLoadResult :=
  if file.length < 8 then .errShort
  else
    let header := file.take 4
    let version := 256 * file.getD 4 0 + file.getD 5 0
    let data := file.drop 8
    if header = [79, 84, 84, 88] then .ok version .lzma data
    else if header = [79, 84, 84, 90] then .ok version .zlib data
    else if header = [79, 84, 84, 78] then .ok version .none (decompress_none data)
    else if header = [79, 84, 84, 68] then .unsupportedFormat
    else .unknownFormat

/-- Modelled from the spec: the canonical gamma encoder of section 4.1
(the repository contains only the decoder). Minimal-length encoding: a
unary length prefix in the first byte's high bits, the value's high bits in
the rest of the first byte, and full 8-bit continuation bytes; the 5-byte
form is the prefix byte `0b11110000` followed by the value as a plain
32-bit big-endian integer. -/
def encode_gamma (n : Nat) : List Nat :=
  if n ≤ 127 then [n]
  else if n ≤ 16383 then [128 + n / 256, n % 256]
  else if n ≤ 2097151 then [192 + n / 65536, n / 256 % 256, n % 256]
  else if n ≤ 268435455 then
    [224 + n / 16777216, n / 65536 % 256, n / 256 % 256, n % 256]
  else [240, n / 16777216, n / 65536 % 256, n / 256 % 256, n % 256]

/-- Documented gamma byte count for each magnitude range. -/
def gammaSize (n : Nat) : Nat :=
  if n ≤ 127 then 1
  else if n ≤ 16383 then 2
  else if n ≤ 2097151 then 3
  else if n ≤ 268435455 then 4
  else 5

theorem DataReader.read_byte_eq (r : DataReader) :
    r.read_byte = if r.position < r.data.length
      then .ok (r.data.getD r.position 0, ⟨r.data, r.position + 1⟩)
      else .error .outOfBounds := by
  unfold DataReader.read_byte DataReader.load
  rw [if_neg (by decide)]
  by_cases hc : r.data.length < r.position
  · rw [if_pos hc, if_neg (by omega)]
  · rw [if_neg hc]
    by_cases hp : r.position < r.data.length
    · rw [if_pos hp]
      have hmin : min 1 (r.data.length - r.position) = 1 := by omega
      rw [hmin, List.drop_eq_getElem_cons hp]
      have hgd : r.data.getD r.position 0 = r.data.get ⟨r.position, hp⟩ := by
        simp [List.getD_eq_getElem, hp]
      rw [hgd]
      rfl
    · rw [if_neg hp]
      have hlen : r.data.length - r.position = 0 := by omega
      have hnil : (r.data.drop r.position).take (min 1 (r.data.length - r.position)) = [] := by
        rw [hlen]
        simp
      rw [hnil]

theorem DataReader.read_bytes_eq (r : DataReader) (n : Nat) :
    r.read_bytes n = if n = 0 then .ok ([], r)
      else if r.data.length < r.position then .error .outOfBounds
      else .ok ((r.data.drop r.position).take (min n (r.data.length - r.position)),
        ⟨r.data, r.position + n⟩) := by
  unfold DataReader.read_bytes DataReader.load
  by_cases hn : n = 0
  · rw [if_pos hn, if_pos hn, hn]
    rfl
  · rw [if_neg hn, if_neg hn]
    by_cases hc : r.data.length < r.position
    · rw [if_pos hc, if_pos hc]
    · rw [if_neg hc, if_neg hc]

theorem DataReader.read_leftover_eq (r : DataReader) :
    r.read_leftover_bytes = if r.data.length < r.position then .error .outOfBounds
      else .ok (r.data.drop r.position, ⟨r.data, r.data.length⟩) := by
  unfold DataReader.read_leftover_bytes DataReader.load
  by_cases hc : r.data.length < r.position
  · rw [if_pos hc, if_pos hc]
  · rw [if_neg hc]
    by_cases hz : r.data.length - r.position = 0
    · rw [if_pos hz]
      have hdrop : r.data.drop r.position = [] := by
        apply List.drop_eq_nil_of_le
        omega
      rw [hdrop, if_neg hc]
    · rw [if_neg hz, if_neg hc, if_neg hc]
      have hmin : min (r.data.length - r.position) (r.data.length - r.position)
          = r.data.length - r.position := by omega
      rw [hmin]
      have htake : (r.data.drop r.position).take (r.data.length - r.position)
          = r.data.drop r.position := by
        apply List.take_of_length_le
        simp
      rw [htake]

theorem DataReader.read_byte_ok {r : DataReader} {b : Nat} {r1 : DataReader}
    (h : r.read_byte = .ok (b, r1)) :
    r1.data = r.data ∧ r1.position = r.position + 1 ∧ r.position < r.data.length := by
  rw [DataReader.read_byte_eq] at h
  by_cases hp : r.position < r.data.length
  · rw [if_pos hp] at h
    simp only [Except.ok.injEq, Prod.mk.injEq] at h
    rw [← h.2]
    exact ⟨rfl, rfl, hp⟩
  · rw [if_neg hp] at h
    exact absurd h (by simp)

theorem DataReader.read_bytes_ok {r : DataReader} {n : Nat} {bs : List Nat}
    {r1 : DataReader} (h : r.read_bytes n = .ok (bs, r1)) :
    r1.data = r.data ∧ r1.position = r.position + n := by
  rw [DataReader.read_bytes_eq] at h
  by_cases hn : n = 0
  · rw [if_pos hn] at h
    simp only [Except.ok.injEq, Prod.mk.injEq] at h
    rw [← h.2, hn]
    exact ⟨rfl, rfl⟩
  · rw [if_neg hn] at h
    by_cases hc : r.data.length < r.position
    · rw [if_pos hc] at h
      exact absurd h (by simp)
    · rw [if_neg hc] at h
      simp only [Except.ok.injEq, Prod.mk.injEq] at h
      rw [← h.2]
      exact ⟨rfl, rfl⟩

theorem DataReader.read_gamma_ok {r : DataReader} {v : Nat × Nat} {r1 : DataReader}
    (h : r.read_gamma = .ok (v, r1)) :
    r1.data = r.data ∧ r.position + 1 ≤ r1.position := by
  unfold DataReader.read_gamma at h
  cases hb1 : r.read_byte with
  | error e => simp only [hb1] at h; exact absurd h (by simp)
  | ok p1 =>
  obtain ⟨b1, ra⟩ := p1
  obtain ⟨hd1, hp1, _⟩ := DataReader.read_byte_ok hb1
  simp only [hb1] at h
  by_cases c1 : b1 &&& 128 = 0
  · rw [if_pos c1] at h
    simp only [Except.ok.injEq, Prod.mk.injEq] at h
    rw [← h.2]
    exact ⟨hd1, by omega⟩
  rw [if_neg c1] at h
  by_cases c2 : b1 &&& 64 = 0
  · rw [if_pos c2] at h
    cases hb2 : ra.read_byte with
    | error e => simp only [hb2] at h; exact absurd h (by simp)
    | ok p2 =>
    obtain ⟨b2, rb⟩ := p2
    obtain ⟨hd2, hp2, _⟩ := DataReader.read_byte_ok hb2
    simp only [hb2] at h
    simp only [Except.ok.injEq, Prod.mk.injEq] at h
    rw [← h.2]
    refine ⟨by rw [hd2, hd1], by omega⟩
  rw [if_neg c2] at h
  by_cases c3 : b1 &&& 32 = 0
  · rw [if_pos c3] at h
    cases hb2 : ra.read_byte with
    | error e => simp only [hb2] at h; exact absurd h (by simp)
    | ok p2 =>
    obtain ⟨b2, rb⟩ := p2
    obtain ⟨hd2, hp2, _⟩ := DataReader.read_byte_ok hb2
    simp only [hb2] at h
    cases hb3 : rb.read_byte with
    | error e => simp only [hb3] at h; exact absurd h (by simp)
    | ok p3 =>
    obtain ⟨b3, rc⟩ := p3
    obtain ⟨hd3, hp3, _⟩ := DataReader.read_byte_ok hb3
    simp only [hb3] at h
    simp only [Except.ok.injEq, Prod.mk.injEq] at h
    rw [← h.2]
    refine ⟨by rw [hd3, hd2, hd1], by omega⟩
  rw [if_neg c3] at h
  by_cases c4 : b1 &&& 16 = 0
  · rw [if_pos c4] at h
    cases hb2 : ra.read_byte with
    | error e => simp only [hb2] at h; exact absurd h (by simp)
    | ok p2 =>
    obtain ⟨b2, rb⟩ := p2
    obtain ⟨hd2, hp2, _⟩ := DataReader.read_byte_ok hb2
    simp only [hb2] at h
    cases hb3 : rb.read_byte with
    | error e => simp only [hb3] at h; exact absurd h (by simp)
    | ok p3 =>
    obtain ⟨b3, rc⟩ := p3
    obtain ⟨hd3, hp3, _⟩ := DataReader.read_byte_ok hb3
    simp only [hb3] at h
    cases hb4 : rc.read_byte with
    | error e => simp only [hb4] at h; exact absurd h (by simp)
    | ok p4 =>
    obtain ⟨b4, rd⟩ := p4
    obtain ⟨hd4, hp4, _⟩ := DataReader.read_byte_ok hb4
    simp only [hb4] at h
    simp only [Except.ok.injEq, Prod.mk.injEq] at h
    rw [← h.2]
    refine ⟨by rw [hd4, hd3, hd2, hd1], by omega⟩
  rw [if_neg c4] at h
  by_cases c5 : b1 &&& 8 = 0
  · rw [if_pos c5] at h
    cases hb2 : ra.read_byte with
    | error e => simp only [hb2] at h; exact absurd h (by simp)
    | ok p2 =>
    obtain ⟨b2, rb⟩ := p2
    obtain ⟨hd2, hp2, _⟩ := DataReader.read_byte_ok hb2
    simp only [hb2] at h
    cases hb3 : rb.read_byte with
    | error e => simp only [hb3] at h; exact absurd h (by simp)
    | ok p3 =>
    obtain ⟨b3, rc⟩ := p3
    obtain ⟨hd3, hp3, _⟩ := DataReader.read_byte_ok hb3
    simp only [hb3] at h
    cases hb4 : rc.read_byte with
    | error e => simp only [hb4] at h; exact absurd h (by simp)
    | ok p4 =>
    obtain ⟨b4, rd⟩ := p4
    obtain ⟨hd4, hp4, _⟩ := DataReader.read_byte_ok hb4
    simp only [hb4] at h
    cases hb5 : rd.read_byte with
    | error e => simp only [hb5] at h; exact absurd h (by simp)
    | ok p5 =>
    obtain ⟨b5, re⟩ := p5
    obtain ⟨hd5, hp5, _⟩ := DataReader.read_byte_ok hb5
    simp only [hb5] at h
    simp only [Except.ok.injEq, Prod.mk.injEq] at h
    rw [← h.2]
    refine ⟨by rw [hd5, hd4, hd3, hd2, hd1], by omega⟩
  rw [if_neg c5] at h
  exact absurd h (by simp)

/-- Fuel adequacy for the `read_table_entries` loop: any fuel of at least
`buffer length + 1 - position` produces the same result, because every
iteration consumes at least the tag byte while the position is in bounds.
Hence the canonical fuel `data.length + 1` used by `read_table_entries`
computes exactly the Rust loop. -/
theorem read_table_entries_go_fuel_irrelevant (fuel : Nat) :
    ∀ e r, r.data.length + 1 ≤ fuel + r.position →
      read_table_entries_go fuel e r = read_table_entries_go (fuel + 1) e r := by
  induction fuel using Nat.strong_induction_on with
  | _ fuel ih =>
  intro e r hf
  cases fuel with
  | zero =>
    simp only [read_table_entries_go]
    rw [DataReader.read_byte_eq, if_neg (by omega)]
  | succ fuel =>
    simp only [read_table_entries_go]
    cases hb : r.read_byte with
    | error e1 => simp only [hb]
    | ok p =>
      obtain ⟨first, r1⟩ := p
      obtain ⟨hd1, hp1, hlt⟩ := DataReader.read_byte_ok hb
      simp only [hb]
      by_cases h0 : first = 0
      · simp only [if_pos h0]
      · simp only [if_neg h0]
        cases hv : valueOfNibble (((first <<< 4) % 256) >>> 4) with
        | none => simp only [hv]
        | some kt =>
          simp only [hv]
          cases hg : r1.read_gamma with
          | error e1 => simp only [hg]
          | ok pg =>
            obtain ⟨⟨second, cnt⟩, r2⟩ := pg
            obtain ⟨hd2, hp2⟩ := DataReader.read_gamma_ok hg
            simp only [hg]
            cases hbs : r2.read_bytes second with
            | error e1 => simp only [hbs]
            | ok pbs =>
              obtain ⟨key, r3⟩ := pbs
              obtain ⟨hd3, hp3⟩ := DataReader.read_bytes_ok hbs
              simp only [hbs]
              by_cases hu : utf8Valid key = true
              · simp only [if_pos hu]
                apply ih fuel (Nat.lt_succ_self fuel)
                rw [hd3, hd2, hd1]
                omega
              · simp only [if_neg hu]

/-- The code's map-accumulating loop is the insert-fold of the
specification's order-preserving parse: both traversals read the same
bytes and fail identically, and the map result is obtained by inserting
the ordered fields left to right (so a later duplicate name overwrites an
earlier one). -/
theorem read_table_entries_go_eq_fold (fuel : Nat) :
    ∀ (e : Entries) (r : DataReader),
      read_table_entries_go fuel e r =
        (readFieldsInOrder_go fuel r).map
          (fun p => (p.1.foldl (fun m f => hmInsert m f.name (f.type, f.is_list)) e, p.2)) := by
  induction fuel with
  | zero => intro e r; rfl
  | succ fuel ih =>
    intro e r
    simp only [read_table_entries_go, readFieldsInOrder_go]
    cases hb : r.read_byte with
    | error e1 => simp only [hb]; rfl
    | ok p =>
      obtain ⟨first, r1⟩ := p
      simp only [hb]
      by_cases h0 : first = 0
      · simp only [if_pos h0]; rfl
      · simp only [if_neg h0]
        cases hv : valueOfNibble (((first <<< 4) % 256) >>> 4) with
        | none => simp only [hv]; rfl
        | some kt =>
          simp only [hv]
          cases hg : r1.read_gamma with
          | error e1 => simp only [hg]; rfl
          | ok pg =>
            obtain ⟨⟨second, cnt⟩, r2⟩ := pg
            simp only [hg]
            cases hbs : r2.read_bytes second with
            | error e1 => simp only [hbs]; rfl
            | ok pbs =>
              obtain ⟨key, r3⟩ := pbs
              simp only [hbs]
              by_cases hu : utf8Valid key = true
              · simp only [if_pos hu]
                rw [ih]
                cases hl : readFieldsInOrder_go fuel r3 with
                | error e1 => simp only [hl]; rfl
                | ok pl =>
                  obtain ⟨l, r4⟩ := pl
                  simp only [hl]
                  rfl
              · simp only [if_neg hu]; rfl

theorem DataReader.read_byte_at0 (a : Nat) (l : List Nat) :
    DataReader.read_byte ⟨a :: l, 0⟩ = .ok (a, ⟨a :: l, 1⟩) := by
  rw [DataReader.read_byte_eq]
  exact if_pos (by simp only [List.length_cons]; omega)

theorem DataReader.read_byte_at1 (a b : Nat) (l : List Nat) :
    DataReader.read_byte ⟨a :: b :: l, 1⟩ = .ok (b, ⟨a :: b :: l, 2⟩) := by
  rw [DataReader.read_byte_eq]
  exact if_pos (by simp only [List.length_cons]; omega)

theorem DataReader.read_byte_at2 (a b c : Nat) (l : List Nat) :
    DataReader.read_byte ⟨a :: b :: c :: l, 2⟩ = .ok (c, ⟨a :: b :: c :: l, 3⟩) := by
  rw [DataReader.read_byte_eq]
  exact if_pos (by simp only [List.length_cons]; omega)

theorem DataReader.read_byte_at3 (a b c d : Nat) (l : List Nat) :
    DataReader.read_byte ⟨a :: b :: c :: d :: l, 3⟩ = .ok (d, ⟨a :: b :: c :: d :: l, 4⟩) := by
  rw [DataReader.read_byte_eq]
  exact if_pos (by simp only [List.length_cons]; omega)

theorem DataReader.read_byte_at4 (a b c d e : Nat) (l : List Nat) :
    DataReader.read_byte ⟨a :: b :: c :: d :: e :: l, 4⟩ =
      .ok (e, ⟨a :: b :: c :: d :: e :: l, 5⟩) := by
  rw [DataReader.read_byte_eq]
  exact if_pos (by simp only [List.length_cons]; omega)

theorem gammaMask1 : ∀ b, b < 128 → b &&& 128 = 0 := by decide

theorem gammaMask2 : ∀ h, h < 64 →
    (128 + h) &&& 128 = 128 ∧ (128 + h) &&& 64 = 0 ∧ (128 + h) &&& 63 = h := by decide

theorem gammaMask3 : ∀ h, h < 32 →
    (192 + h) &&& 128 = 128 ∧ (192 + h) &&& 64 = 64 ∧ (192 + h) &&& 32 = 0 ∧
    (192 + h) &&& 31 = h := by decide

theorem gammaMask4 : ∀ h, h < 16 →
    (224 + h) &&& 128 = 128 ∧ (224 + h) &&& 64 = 64 ∧ (224 + h) &&& 32 = 32 ∧
    (224 + h) &&& 16 = 0 ∧ (224 + h) &&& 15 = h := by decide

theorem gammaMask5 :
    (240 &&& 128 = 128) ∧ (240 &&& 64 = 64) ∧ (240 &&& 32 = 32) ∧
    (240 &&& 16 = 16) ∧ (240 &&& 8 = 0) := by decide

/-- Claim C1: for every value up to 2^32 - 1, encoding by the canonical gamma
scheme and decoding with `read_gamma` returns the value exactly, consumes
exactly the documented byte count for its magnitude range (the returned
count, the final cursor position, and the encoded length all equal it),
with only the first byte's low bits masked and every continuation byte
contributing all 8 bits. -/
theorem gamma_roundtrip_c1 (n : Nat) (rest : List Nat) (h : n < 4294967296) :
    DataReader.read_gamma ⟨encode_gamma n ++ rest, 0⟩ =
      .ok ((n, gammaSize n), ⟨encode_gamma n ++ rest, gammaSize n⟩) ∧
    (encode_gamma n).length = gammaSize n ∧
    gammaSize n =
      (if n ≤ 127 then 1 else if n ≤ 16383 then 2 else if n ≤ 2097151 then 3
       else if n ≤ 268435455 then 4 else 5) := by
  refine ⟨?_, ?_, rfl⟩
  · by_cases h1 : n ≤ 127
    · have he : encode_gamma n = [n] := by rw [encode_gamma, if_pos h1]
      have hsz : gammaSize n = 1 := by rw [gammaSize, if_pos h1]
      rw [he, hsz]
      simp only [List.cons_append, List.nil_append]
      unfold DataReader.read_gamma
      simp only [DataReader.read_byte_at0]
      rw [if_pos (gammaMask1 n (by omega))]
    · by_cases h2 : n ≤ 16383
      · have he : encode_gamma n = [128 + n / 256, n % 256] := by
          rw [encode_gamma, if_neg h1, if_pos h2]
        have hsz : gammaSize n = 2 := by rw [gammaSize, if_neg h1, if_pos h2]
        have hq : n / 256 < 64 := by omega
        rw [he, hsz]
        simp only [List.cons_append, List.nil_append]
        unfold DataReader.read_gamma
        simp only [DataReader.read_byte_at0]
        have hc1 : ¬((128 + n / 256) &&& 128 = 0) := by
          rw [(gammaMask2 _ hq).1]; decide
        rw [if_neg hc1, if_pos (gammaMask2 _ hq).2.1]
        simp only [DataReader.read_byte_at1]
        rw [(gammaMask2 _ hq).2.2]
        simp only [Except.ok.injEq, Prod.mk.injEq]
        refine ⟨⟨?_, trivial⟩, trivial⟩
        rw [Nat.shiftLeft_eq, Nat.mul_comm (n / 256) (2 ^ 8)]
        have hb2 : n % 256 < 2 ^ 8 := by
          have e1 : (2:Nat) ^ 8 = 256 := by norm_num
          rw [e1]; omega
        rw [← Nat.mul_add_lt_is_or hb2 (n / 256)]
        have e1 : (2:Nat) ^ 8 = 256 := by norm_num
        rw [e1]
        omega
      · by_cases h3 : n ≤ 2097151
        · have he : encode_gamma n = [192 + n / 65536, n / 256 % 256, n % 256] := by
            rw [encode_gamma, if_neg h1, if_neg h2, if_pos h3]
          have hsz : gammaSize n = 3 := by
            rw [gammaSize, if_neg h1, if_neg h2, if_pos h3]
          have hq : n / 65536 < 32 := by omega
          rw [he, hsz]
          simp only [List.cons_append, List.nil_append]
          unfold DataReader.read_gamma
          simp only [DataReader.read_byte_at0]
          have hc1 : ¬((192 + n / 65536) &&& 128 = 0) := by
            rw [(gammaMask3 _ hq).1]; decide
          have hc2 : ¬((192 + n / 65536) &&& 64 = 0) := by
            rw [(gammaMask3 _ hq).2.1]; decide
          rw [if_neg hc1, if_neg hc2, if_pos (gammaMask3 _ hq).2.2.1]
          simp only [DataReader.read_byte_at1, DataReader.read_byte_at2]
          rw [(gammaMask3 _ hq).2.2.2]
          simp only [Except.ok.injEq, Prod.mk.injEq]
          refine ⟨⟨?_, trivial⟩, trivial⟩
          rw [Nat.shiftLeft_eq, Nat.shiftLeft_eq]
          rw [Nat.mul_comm (n / 65536) (2 ^ 16), Nat.mul_comm (n / 256 % 256) (2 ^ 8)]
          have hbA : 2 ^ 8 * (n / 256 % 256) < 2 ^ 16 := by
            have e1 : (2:Nat) ^ 8 = 256 := by norm_num
            have e2 : (2:Nat) ^ 16 = 65536 := by norm_num
            rw [e1, e2]; omega
          rw [← Nat.mul_add_lt_is_or hbA (n / 65536)]
          have hre : 2 ^ 16 * (n / 65536) + 2 ^ 8 * (n / 256 % 256)
              = 2 ^ 8 * (2 ^ 8 * (n / 65536) + n / 256 % 256) := by ring
          rw [hre]
          have hbB : n % 256 < 2 ^ 8 := by
            have e1 : (2:Nat) ^ 8 = 256 := by norm_num
            rw [e1]; omega
          rw [← Nat.mul_add_lt_is_or hbB (2 ^ 8 * (n / 65536) + n / 256 % 256)]
          have e1 : (2:Nat) ^ 8 = 256 := by norm_num
          rw [e1]
          omega
        · by_cases h4 : n ≤ 268435455
          · have he : encode_gamma n
                = [224 + n / 16777216, n / 65536 % 256, n / 256 % 256, n % 256] := by
              rw [encode_gamma, if_neg h1, if_neg h2, if_neg h3, if_pos h4]
            have hsz : gammaSize n = 4 := by
              rw [gammaSize, if_neg h1, if_neg h2, if_neg h3, if_pos h4]
            have hq : n / 16777216 < 16 := by omega
            rw [he, hsz]
            simp only [List.cons_append, List.nil_append]
            unfold DataReader.read_gamma
            simp only [DataReader.read_byte_at0]
            have hc1 : ¬((224 + n / 16777216) &&& 128 = 0) := by
              rw [(gammaMask4 _ hq).1]; decide
            have hc2 : ¬((224 + n / 16777216) &&& 64 = 0) := by
              rw [(gammaMask4 _ hq).2.1]; decide
            have hc3 : ¬((224 + n / 16777216) &&& 32 = 0) := by
              rw [(gammaMask4 _ hq).2.2.1]; decide
            rw [if_neg hc1, if_neg hc2, if_neg hc3,
              if_pos (gammaMask4 _ hq).2.2.2.1]
            simp only [DataReader.read_byte_at1, DataReader.read_byte_at2,
              DataReader.read_byte_at3]
            rw [(gammaMask4 _ hq).2.2.2.2]
            simp only [Except.ok.injEq, Prod.mk.injEq]
            refine ⟨⟨?_, trivial⟩, trivial⟩
            rw [Nat.shiftLeft_eq, Nat.shiftLeft_eq, Nat.shiftLeft_eq]
            rw [Nat.mul_comm (n / 16777216) (2 ^ 24),
              Nat.mul_comm (n / 65536 % 256) (2 ^ 16),
              Nat.mul_comm (n / 256 % 256) (2 ^ 8)]
            have hbA : 2 ^ 16 * (n / 65536 % 256) < 2 ^ 24 := by
              have e1 : (2:Nat) ^ 16 = 65536 := by norm_num
              have e2 : (2:Nat) ^ 24 = 16777216 := by norm_num
              rw [e1, e2]; omega
            rw [← Nat.mul_add_lt_is_or hbA (n / 16777216)]
            have hreA : 2 ^ 24 * (n / 16777216) + 2 ^ 16 * (n / 65536 % 256)
                = 2 ^ 16 * (2 ^ 8 * (n / 16777216) + n / 65536 % 256) := by ring
            rw [hreA]
            have hbB : 2 ^ 8 * (n / 256 % 256) < 2 ^ 16 := by
              have e1 : (2:Nat) ^ 8 = 256 := by norm_num
              have e2 : (2:Nat) ^ 16 = 65536 := by norm_num
              rw [e1, e2]; omega
            rw [← Nat.mul_add_lt_is_or hbB (2 ^ 8 * (n / 16777216) + n / 65536 % 256)]
            have hreB : 2 ^ 16 * (2 ^ 8 * (n / 16777216) + n / 65536 % 256)
                  + 2 ^ 8 * (n / 256 % 256)
                = 2 ^ 8 * (2 ^ 8 * (2 ^ 8 * (n / 16777216) + n / 65536 % 256)
                  + n / 256 % 256) := by ring
            rw [hreB]
            have hbC : n % 256 < 2 ^ 8 := by
              have e1 : (2:Nat) ^ 8 = 256 := by norm_num
              rw [e1]; omega
            rw [← Nat.mul_add_lt_is_or hbC
              (2 ^ 8 * (2 ^ 8 * (n / 16777216) + n / 65536 % 256) + n / 256 % 256)]
            have e1 : (2:Nat) ^ 8 = 256 := by norm_num
            rw [e1]
            omega
          · have he : encode_gamma n
                = [240, n / 16777216, n / 65536 % 256, n / 256 % 256, n % 256] := by
              rw [encode_gamma, if_neg h1, if_neg h2, if_neg h3, if_neg h4]
            have hsz : gammaSize n = 5 := by
              rw [gammaSize, if_neg h1, if_neg h2, if_neg h3, if_neg h4]
            rw [he, hsz]
            simp only [List.cons_append, List.nil_append]
            unfold DataReader.read_gamma
            simp only [DataReader.read_byte_at0]
            have hc1 : ¬((240 : Nat) &&& 128 = 0) := by decide
            have hc2 : ¬((240 : Nat) &&& 64 = 0) := by decide
            have hc3 : ¬((240 : Nat) &&& 32 = 0) := by decide
            have hc4 : ¬((240 : Nat) &&& 16 = 0) := by decide
            have hc5 : (240 : Nat) &&& 8 = 0 := by decide
            rw [if_neg hc1, if_neg hc2, if_neg hc3, if_neg hc4, if_pos hc5]
            simp only [DataReader.read_byte_at1, DataReader.read_byte_at2,
              DataReader.read_byte_at3, DataReader.read_byte_at4]
            simp only [Except.ok.injEq, Prod.mk.injEq]
            refine ⟨⟨?_, trivial⟩, trivial⟩
            rw [Nat.shiftLeft_eq, Nat.shiftLeft_eq, Nat.shiftLeft_eq]
            rw [Nat.mul_comm (n / 16777216) (2 ^ 24),
              Nat.mul_comm (n / 65536 % 256) (2 ^ 16),
              Nat.mul_comm (n / 256 % 256) (2 ^ 8)]
            have hbA : 2 ^ 16 * (n / 65536 % 256) < 2 ^ 24 := by
              have e1 : (2:Nat) ^ 16 = 65536 := by norm_num
              have e2 : (2:Nat) ^ 24 = 16777216 := by norm_num
              rw [e1, e2]; omega
            rw [← Nat.mul_add_lt_is_or hbA (n / 16777216)]
            have hreA : 2 ^ 24 * (n / 16777216) + 2 ^ 16 * (n / 65536 % 256)
                = 2 ^ 16 * (2 ^ 8 * (n / 16777216) + n / 65536 % 256) := by ring
            rw [hreA]
            have hbB : 2 ^ 8 * (n / 256 % 256) < 2 ^ 16 := by
              have e1 : (2:Nat) ^ 8 = 256 := by norm_num
              have e2 : (2:Nat) ^ 16 = 65536 := by norm_num
              rw [e1, e2]; omega
            rw [← Nat.mul_add_lt_is_or hbB (2 ^ 8 * (n / 16777216) + n / 65536 % 256)]
            have hreB : 2 ^ 16 * (2 ^ 8 * (n / 16777216) + n / 65536 % 256)
                  + 2 ^ 8 * (n / 256 % 256)
                = 2 ^ 8 * (2 ^ 8 * (2 ^ 8 * (n / 16777216) + n / 65536 % 256)
                  + n / 256 % 256) := by ring
            rw [hreB]
            have hbC : n % 256 < 2 ^ 8 := by
              have e1 : (2:Nat) ^ 8 = 256 := by norm_num
              rw [e1]; omega
            rw [← Nat.mul_add_lt_is_or hbC
              (2 ^ 8 * (2 ^ 8 * (n / 16777216) + n / 65536 % 256) + n / 256 % 256)]
            have e1 : (2:Nat) ^ 8 = 256 := by norm_num
            rw [e1]
            omega
  · by_cases h1 : n ≤ 127
    · rw [encode_gamma, gammaSize, if_pos h1, if_pos h1]
      rfl
    · by_cases h2 : n ≤ 16383
      · rw [encode_gamma, gammaSize, if_neg h1, if_pos h2, if_neg h1, if_pos h2]
        rfl
      · by_cases h3 : n ≤ 2097151
        · rw [encode_gamma, gammaSize, if_neg h1, if_neg h2, if_pos h3,
            if_neg h1, if_neg h2, if_pos h3]
          rfl
        · by_cases h4 : n ≤ 268435455
          · rw [encode_gamma, gammaSize, if_neg h1, if_neg h2, if_neg h3,
              if_pos h4, if_neg h1, if_neg h2, if_neg h3, if_pos h4]
            rfl
          · rw [encode_gamma, gammaSize, if_neg h1, if_neg h2, if_neg h3,
              if_neg h4, if_neg h1, if_neg h2, if_neg h3, if_neg h4]
            rfl

/-- Rust `first << 4 >> 4` on u8 extracts the low nibble: it equals `first % 16`. -/
theorem shiftNibble_eq_mod (t : Nat) : ((t <<< 4) % 256) >>> 4 = t % 16 := by
  rw [Nat.shiftLeft_eq, Nat.shiftRight_eq_div_pow]
  omega

theorem land16_cases (t : Nat) : t &&& 16 = 16 ∨ t &&& 16 = 0 := by
  have h := Nat.and_two_pow t 4
  norm_num at h
  cases hb : t.testBit 4
  · rw [hb] at h
    simp at h
    right
    exact h
  · rw [hb] at h
    simp at h
    left
    exact h

/-- The code's `first & 0b0001_0000 == 0b0001_0000` equals the spec's
`tag & 0x10 != 0`. -/
theorem is_gamma_eq (t : Nat) : (t &&& 16 == 16) = decide (t &&& 16 ≠ 0) := by
  cases land16_cases t with
  | inl h => rw [h]; decide
  | inr h => rw [h]; decide

theorem valueOfNibble_eq_none (m : Nat) (h : ¬(1 ≤ m ∧ m ≤ 11)) :
    valueOfNibble m = none := by
  have h0 : m = 0 ∨ 12 ≤ m := by omega
  cases h0 with
  | inl h1 => subst h1; rfl
  | inr h1 =>
    obtain ⟨k, rfl⟩ : ∃ k, m = k + 12 := ⟨m - 12, by omega⟩
    rfl

/-- Claim C4: a schema tag byte of 0 terminates the field list returning the
fields accumulated so far; a non-zero tag whose low nibble `tag & 0x0F`
(= `tag % 16`) is outside 1..11 fails with the unknown-field-type panic;
otherwise the decoder reads a gamma name length and that many name bytes as
the UTF-8 field name and continues with the field recorded under
`is_list = (tag & 0x10 != 0)` and the type selected by the low nibble. -/
theorem schema_tag_c4 :
    (∀ (fuel : Nat) (e : Entries) (r r1 : DataReader),
      r.read_byte = .ok (0, r1) →
      read_table_entries_go (fuel + 1) e r = .ok (e, r1)) ∧
    (∀ (fuel : Nat) (e : Entries) (r r1 : DataReader) (t : Nat),
      r.read_byte = .ok (t, r1) → t ≠ 0 → ¬(1 ≤ t % 16 ∧ t % 16 ≤ 11) →
      read_table_entries_go (fuel + 1) e r = .error .unknownFieldType) ∧
    (∀ (fuel : Nat) (e : Entries) (r r1 r2 r3 : DataReader) (t ln cnt : Nat)
      (v : Value) (name : List Nat),
      r.read_byte = .ok (t, r1) → t ≠ 0 →
      valueOfNibble (t % 16) = some v →
      r1.read_gamma = .ok ((ln, cnt), r2) →
      r2.read_bytes ln = .ok (name, r3) →
      utf8Valid name = true →
      read_table_entries_go (fuel + 1) e r =
        read_table_entries_go fuel
          (hmInsert e name (v, decide (t &&& 16 ≠ 0))) r3) := by
  refine ⟨?_, ?_, ?_⟩
  · intro fuel e r r1 hb
    simp only [read_table_entries_go, hb]
    simp
  · intro fuel e r r1 t hb ht hnib
    simp only [read_table_entries_go, hb]
    rw [if_neg ht, shiftNibble_eq_mod, valueOfNibble_eq_none _ hnib]
  · intro fuel e r r1 r2 r3 t ln cnt v name hb ht hv hg hbs hu
    simp only [read_table_entries_go, hb]
    rw [if_neg ht]
    simp only [shiftNibble_eq_mod, hv, hg, hbs]
    rw [if_pos hu, is_gamma_eq]

theorem schema_tag_c4_witness :
    read_table_entries_go 1 [] ⟨[0], 0⟩ = .ok ([], ⟨[0], 1⟩) ∧
    read_table_entries_go 1 [] ⟨[12], 0⟩ = .error .unknownFieldType ∧
    read_table_entries_go 2 [] ⟨[17, 1, 97, 0], 0⟩ =
      read_table_entries_go 1 (hmInsert [] [97] (Value.i8, true))
        ⟨[17, 1, 97, 0], 3⟩ := by
  refine ⟨schema_tag_c4.1 0 [] ⟨[0], 0⟩ ⟨[0], 1⟩ (by decide),
    schema_tag_c4.2.1 0 [] ⟨[12], 0⟩ ⟨[12], 1⟩ 12 (by decide) (by decide) (by decide),
    ?_⟩
  have h := schema_tag_c4.2.2 1 [] ⟨[17, 1, 97, 0], 0⟩ ⟨[17, 1, 97, 0], 1⟩
    ⟨[17, 1, 97, 0], 2⟩ ⟨[17, 1, 97, 0], 3⟩ 17 1 1 Value.i8 [97]
    (by decide) (by decide) (by decide) (by decide) (by decide) (by decide)
  exact h

/-- Claim C9 (amended): a gamma-decoded name length of 0 is not a terminator:
`read_bytes 0` succeeds with an empty byte string, so the decoder records a
field with an empty name and continues the loop. -/
theorem zero_name_c9_amended :
    ∀ (fuel : Nat) (e : Entries) (r r1 r2 : DataReader) (t cnt : Nat) (v : Value),
      r.read_byte = .ok (t, r1) → t ≠ 0 →
      valueOfNibble (t % 16) = some v →
      r1.read_gamma = .ok ((0, cnt), r2) →
      read_table_entries_go (fuel + 1) e r =
        read_table_entries_go fuel (hmInsert e [] (v, decide (t &&& 16 ≠ 0))) r2 := by
  intro fuel e r r1 r2 t cnt v hb ht hv hg
  have hbs : r2.read_bytes 0 = .ok ([], r2) := by
    rw [DataReader.read_bytes_eq, if_pos rfl]
  simp only [read_table_entries_go, hb]
  rw [if_neg ht]
  simp only [shiftNibble_eq_mod, hv, hg, hbs]
  rw [if_pos (by decide : utf8Valid [] = true), is_gamma_eq]

theorem zero_name_c9_witness :
    read_table_entries_go 2 [] ⟨[1, 0, 0], 0⟩ =
      read_table_entries_go 1 (hmInsert [] [] (Value.i8, false)) ⟨[1, 0, 0], 2⟩ := by
  have h := zero_name_c9_amended 1 [] ⟨[1, 0, 0], 0⟩ ⟨[1, 0, 0], 1⟩ ⟨[1, 0, 0], 2⟩
    1 1 Value.i8 (by decide) (by decide) (by decide) (by decide)
  exact h

/-- Claim C9 counterexample: on the header block `[0x01, 0x00, 0x00]` (field tag
I8, gamma name length 0, then the real terminator) the parse does not stop
at the zero length: it records a field with the empty name and then
consumes the final terminator byte, ending at position 3. -/
theorem zero_name_c9_counterexample :
    read_table_entries ⟨[1, 0, 0], 0⟩ =
      .ok ([([], (Value.i8, false))], ⟨[1, 0, 0], 3⟩) := by decide

/-- Claim C3 (amended): the decoder visits fields in exact on-disk order, but
returns them as a name-keyed hash map equal to the left fold of
`HashMap::insert` over the ordered field sequence; a duplicate name
overwrites the earlier entry, so the result preserves neither order nor
multiplicity. -/
theorem schema_order_c3_amended (r : DataReader) :
    read_table_entries r =
      (readFieldsInOrder r).map
        (fun p => (p.1.foldl (fun m f => hmInsert m f.name (f.type, f.is_list)) [], p.2)) :=
  read_table_entries_go_eq_fold (r.data.length + 1) [] r

/-- Claim C3 counterexample: the header block `[1, 1, 97, 2, 1, 97, 0]` declares
two fields in order -- ("a", I8) then ("a", U8) -- but `read_table_entries`
returns a one-entry map holding only the later binding, so the result is
not the ordered two-element sequence of fields encountered in the stream. -/
theorem schema_order_c3_counterexample :
    readFieldsInOrder ⟨[1, 1, 97, 2, 1, 97, 0], 0⟩ =
      .ok ([⟨[97], Value.i8, false⟩, ⟨[97], Value.u8, false⟩],
        ⟨[1, 1, 97, 2, 1, 97, 0], 7⟩) ∧
    read_table_entries ⟨[1, 1, 97, 2, 1, 97, 0], 0⟩ =
      .ok ([([97], (Value.u8, false))], ⟨[1, 1, 97, 2, 1, 97, 0], 7⟩) :=
  ⟨by decide, by decide⟩

/-- Claim C10: an in-memory cursor read of `n` bytes past the end (from an
in-bounds position `p` with `p + n > N`) silently returns only the
`min n (N - p)` remaining bytes -- possibly none -- with no error, yet
advances the position by the full `n`, strictly past `N`; every subsequent
read from that position returns no data (an out-of-bounds failure, or the
empty vector for a zero-size read). -/
theorem read_bytes_truncation_c10 (data : List Nat) (p n : Nat)
    (hp : p ≤ data.length) (hover : data.length < p + n) :
    DataReader.read_bytes ⟨data, p⟩ n =
      .ok ((data.drop p).take (min n (data.length - p)), ⟨data, p + n⟩) ∧
    data.length < p + n ∧
    DataReader.read_byte ⟨data, p + n⟩ = .error .outOfBounds ∧
    (∀ m, m ≠ 0 → DataReader.read_bytes ⟨data, p + n⟩ m = .error .outOfBounds) ∧
    DataReader.read_bytes ⟨data, p + n⟩ 0 = .ok ([], ⟨data, p + n⟩) ∧
    DataReader.read_leftover_bytes ⟨data, p + n⟩ = .error .outOfBounds := by
  refine ⟨?_, hover, ?_, ?_, ?_, ?_⟩
  · rw [DataReader.read_bytes_eq,
      if_neg (by show ¬(n = 0); omega),
      if_neg (by show ¬(data.length < p); omega)]
  · rw [DataReader.read_byte_eq, if_neg (by show ¬(p + n < data.length); omega)]
  · intro m hm
    rw [DataReader.read_bytes_eq, if_neg hm,
      if_pos (by show data.length < p + n; omega)]
  · rw [DataReader.read_bytes_eq, if_pos rfl]
  · rw [DataReader.read_leftover_eq,
      if_pos (by show data.length < p + n; omega)]

theorem read_bytes_truncation_c10_witness :
    DataReader.read_bytes ⟨[1], 0⟩ 2 = .ok ([1], ⟨[1], 2⟩) ∧
    DataReader.read_byte ⟨[1], 2⟩ = .error .outOfBounds ∧
    DataReader.read_bytes ⟨[1], 2⟩ 3 = .error .outOfBounds := by
  have h := read_bytes_truncation_c10 [1] 0 2 (by omega) (by decide)
  exact ⟨h.1, h.2.2.1, h.2.2.2.1 3 (by omega)⟩

/-- Claim C6 counterexample: with one byte in the buffer, `read_bytes 2` does
not fail with an out-of-bounds error: it succeeds, returning the truncated
single byte and advancing the position to 2. -/
theorem reader_oob_c6_counterexample :
    DataReader.read_bytes ⟨[1], 0⟩ 2 = .ok ([1], ⟨[1], 2⟩) ∧
    ∀ e, DataReader.read_bytes ⟨[1], 0⟩ 2 ≠ .error e := by
  refine ⟨by decide, ?_⟩
  intro e h
  rw [show DataReader.read_bytes ⟨[1], 0⟩ 2 = .ok ([1], ⟨[1], 2⟩) from by decide] at h
  exact Except.noConfusion h

/-- Claim C6 (amended): the single-byte read fails out of bounds whenever no
byte remains, but the n-byte read does not: from an in-bounds position
with fewer than `n` bytes remaining it silently returns the truncated
remainder and advances by the full `n`; after `read_leftover_bytes` sets
the position to the end, `read_byte` fails with the out-of-bounds error
while a nonzero `read_bytes` silently returns the empty vector. -/
theorem reader_oob_c6_amended :
    (∀ (data : List Nat) (p n : Nat), p ≤ data.length → data.length < p + n →
      DataReader.read_bytes ⟨data, p⟩ n = .ok (data.drop p, ⟨data, p + n⟩)) ∧
    (∀ r : DataReader, r.position = r.data.length →
      r.read_byte = .error .outOfBounds) ∧
    (∀ (r r1 : DataReader) (bs : List Nat),
      r.read_leftover_bytes = .ok (bs, r1) →
      r1.position = r1.data.length ∧
      r1.read_byte = .error .outOfBounds ∧
      ∀ m, m ≠ 0 → r1.read_bytes m = .ok ([], ⟨r1.data, r1.data.length + m⟩)) := by
  refine ⟨?_, ?_, ?_⟩
  · intro data p n hp hover
    rw [DataReader.read_bytes_eq,
      if_neg (by show ¬(n = 0); omega),
      if_neg (by show ¬(data.length < p); omega)]
    have hmin : min n (data.length - p) = data.length - p := by omega
    rw [hmin, List.take_of_length_le (by rw [List.length_drop])]
  · intro r h
    rw [DataReader.read_byte_eq, if_neg (by omega)]
  · intro r r1 bs h
    rw [DataReader.read_leftover_eq] at h
    by_cases hc : r.data.length < r.position
    · rw [if_pos hc] at h
      exact absurd h (by simp)
    · rw [if_neg hc] at h
      simp only [Except.ok.injEq, Prod.mk.injEq] at h
      have hr1 : r1 = ⟨r.data, r.data.length⟩ := h.2.symm
      subst hr1
      refine ⟨rfl, ?_, ?_⟩
      · rw [DataReader.read_byte_eq,
          if_neg (by show ¬(r.data.length < r.data.length); omega)]
      · intro m hm
        rw [DataReader.read_bytes_eq, if_neg hm,
          if_neg (by show ¬(r.data.length < r.data.length); omega)]
        have hmin : min m (r.data.length - r.data.length) = 0 := by omega
        rw [hmin]
        rfl

theorem reader_oob_c6_witness :
    DataReader.read_bytes ⟨[5], 0⟩ 3 = .ok ([5], ⟨[5], 3⟩) ∧
    DataReader.read_byte ⟨[5], 1⟩ = .error .outOfBounds ∧
    DataReader.read_byte ⟨[9, 9], 2⟩ = .error .outOfBounds := by
  have h := reader_oob_c6_amended
  refine ⟨h.1 [5] 0 3 (by omega) (by decide), h.2.1 ⟨[5], 1⟩ rfl, ?_⟩
  exact (h.2.2 ⟨[9, 9], 0⟩ ⟨[9, 9], 2⟩ [9, 9] (by decide)).2.1

/-- Claim C2 (amended): for files with the full 8-byte header, "OTTN" plus
version bytes, two reserved bytes and a payload loads successfully with the
big-endian u16 version, selects the identity (None) decompression, and the
stored body is the payload unchanged; "OTTZ"/"OTTX" select the Zlib/Lzma
decompressors on the payload; "OTTD" fails as unsupported and any other
magic fails as unknown. (The compression kind is only selected for
dispatch; the Rust `Savegame` struct stores no compression field.) -/
theorem savegame_load_c2_amended :
    (∀ (v1 v2 x1 x2 : Nat) (payload : List Nat),
      Savegame.load (79 :: 84 :: 84 :: 78 :: v1 :: v2 :: x1 :: x2 :: payload) =
        .ok (256 * v1 + v2) .none (decompress_none payload)) ∧
    (∀ (v1 v2 x1 x2 : Nat) (payload : List Nat),
      Savegame.load (79 :: 84 :: 84 :: 90 :: v1 :: v2 :: x1 :: x2 :: payload) =
        .ok (256 * v1 + v2) .zlib payload) ∧
    (∀ (v1 v2 x1 x2 : Nat) (payload : List Nat),
      Savegame.load (79 :: 84 :: 84 :: 88 :: v1 :: v2 :: x1 :: x2 :: payload) =
        .ok (256 * v1 + v2) .lzma payload) ∧
    (∀ (v1 v2 x1 x2 : Nat) (payload : List Nat),
      Savegame.load (79 :: 84 :: 84 :: 68 :: v1 :: v2 :: x1 :: x2 :: payload) =
        .unsupportedFormat) ∧
    (∀ file : List Nat, 8 ≤ file.length →
      file.take 4 ≠ [79, 84, 84, 88] → file.take 4 ≠ [79, 84, 84, 90] →
      file.take 4 ≠ [79, 84, 84, 78] → file.take 4 ≠ [79, 84, 84, 68] →
      Savegame.load file = .unknownFormat) := by
  refine ⟨?_, ?_, ?_, ?_, ?_⟩
  · intro v1 v2 x1 x2 payload
    unfold Savegame.load
    rw [if_neg (by simp only [List.length_cons]; omega)]
    rfl
  · intro v1 v2 x1 x2 payload
    unfold Savegame.load
    rw [if_neg (by simp only [List.length_cons]; omega)]
    rfl
  · intro v1 v2 x1 x2 payload
    unfold Savegame.load
    rw [if_neg (by simp only [List.length_cons]; omega)]
    rfl
  · intro v1 v2 x1 x2 payload
    unfold Savegame.load
    rw [if_neg (by simp only [List.length_cons]; omega)]
    rfl
  · intro file h8 n1 n2 n3 n4
    unfold Savegame.load
    rw [if_neg (by omega), if_neg n1, if_neg n2, if_neg n3, if_neg n4]

theorem savegame_load_c2_witness :
    Savegame.load (79 :: 84 :: 84 :: 78 :: 0 :: 1 :: 0 :: 0 :: [10, 20]) =
      .ok 1 .none [10, 20] ∧
    Savegame.load [88, 88, 88, 88, 0, 1, 0, 0] = .unknownFormat := by
  have h := savegame_load_c2_amended
  exact ⟨h.1 0 1 0 0 [10, 20],
    h.2.2.2.2 [88, 88, 88, 88, 0, 1, 0, 0] (by decide)
      (by decide) (by decide) (by decide) (by decide)⟩

/-- Claim C2 counterexample: the 4-byte file "OTTD" does not fail with the
unsupported-format error the claim universally asserts for inputs
beginning "OTTD": the version read panics first (short header). -/
theorem savegame_load_c2_counterexample :
    Savegame.load [79, 84, 84, 68] = .errShort ∧
    Savegame.load [79, 84, 84, 68] ≠ .unsupportedFormat := by
  refine ⟨by decide, by decide⟩

/-- Claim C8 (amended): at end of stream (position at the buffer length),
`read_chunk` does not terminate as a normal end-of-stream: the 4-byte
label read silently returns an empty label and pushes the position past
the end, and the kind-byte read then fails with the out-of-bounds panic. -/
theorem read_chunk_eos_c8_amended (r : DataReader) (h : r.position = r.data.length) :
    read_chunk r = .error .outOfBounds := by
  have hb : r.read_bytes 4 =
      .ok ((r.data.drop r.position).take (min 4 (r.data.length - r.position)),
        ⟨r.data, r.position + 4⟩) := by
    rw [DataReader.read_bytes_eq, if_neg (by decide),
      if_neg (by show ¬(r.data.length < r.position); omega)]
  have hb2 : DataReader.read_byte ⟨r.data, r.position + 4⟩ = .error .outOfBounds := by
    rw [DataReader.read_byte_eq,
      if_neg (by show ¬(r.position + 4 < r.data.length); omega)]
  unfold read_chunk
  simp only [hb, hb2]

theorem read_chunk_eos_c8_witness :
    read_chunk ⟨[1, 2, 3], 3⟩ = .error .outOfBounds :=
  read_chunk_eos_c8_amended ⟨[1, 2, 3], 3⟩ rfl

/-- Claim C8 counterexample: on an empty chunk stream, where the label bytes
cannot be read because no bytes remain, `read_chunk` fails with an
out-of-bounds error -- an error outcome, not a normal non-error
end-of-stream termination (and `Savegame::process` reads exactly one chunk,
with no iteration loop at all). -/
theorem read_chunk_eos_c8_counterexample :
    read_chunk ⟨[], 0⟩ = .error .outOfBounds := by decide

/-- Claim C7 (amended): a chunk whose 1-byte kind tag is outside 0..4 fails with
the unknown-chunk-kind panic, and Array (1) and SparseArray (2) fail as
unsupported; but Riff (0) does not fail: `handle_riff` returns an empty
payload and the chunk decodes successfully. -/
theorem chunk_kinds_c7_amended :
    (∀ (a b c d k : Nat) (tail : List Nat), 5 ≤ k →
      read_chunk ⟨a :: b :: c :: d :: k :: tail, 0⟩ = .error .unknownChunkKind) ∧
    (∀ (a b c d : Nat) (tail : List Nat),
      read_chunk ⟨a :: b :: c :: d :: 1 :: tail, 0⟩ = .error .unsupportedChunkKind) ∧
    (∀ (a b c d : Nat) (tail : List Nat),
      read_chunk ⟨a :: b :: c :: d :: 2 :: tail, 0⟩ = .error .unsupportedChunkKind) ∧
    (∀ (a b c d : Nat) (tail : List Nat), utf8Valid [a, b, c, d] = true →
      read_chunk ⟨a :: b :: c :: d :: 0 :: tail, 0⟩ =
        .ok (⟨[a, b, c, d], .riff, handle_riff⟩,
          ⟨a :: b :: c :: d :: 0 :: tail, 5⟩)) := by
  have hlabel : ∀ (a b c d k : Nat) (tail : List Nat),
      DataReader.read_bytes ⟨a :: b :: c :: d :: k :: tail, 0⟩ 4 =
        .ok ([a, b, c, d], ⟨a :: b :: c :: d :: k :: tail, 4⟩) := by
    intro a b c d k tail
    rw [DataReader.read_bytes_eq, if_neg (by decide),
      if_neg (by show ¬((a :: b :: c :: d :: k :: tail).length < 0); omega)]
    have hmin : min 4 ((a :: b :: c :: d :: k :: tail).length - 0) = 4 := by
      simp only [List.length_cons]
      omega
    rw [hmin]
    rfl
  have hkind : ∀ (a b c d k : Nat) (tail : List Nat),
      DataReader.read_byte ⟨a :: b :: c :: d :: k :: tail, 4⟩ =
        .ok (k, ⟨a :: b :: c :: d :: k :: tail, 5⟩) := by
    intro a b c d k tail
    rw [DataReader.read_byte_eq,
      if_pos (by simp only [List.length_cons]; omega)]
    rfl
  refine ⟨?_, ?_, ?_, ?_⟩
  · intro a b c d k tail hk
    obtain ⟨m, rfl⟩ : ∃ m, k = m + 5 := ⟨k - 5, by omega⟩
    unfold read_chunk
    simp only [hlabel, hkind]
  · intro a b c d tail
    unfold read_chunk
    simp only [hlabel, hkind]
  · intro a b c d tail
    unfold read_chunk
    simp only [hlabel, hkind]
  · intro a b c d tail hu
    unfold read_chunk
    simp only [hlabel, hkind]
    rw [if_pos hu]

/-- Claim C7 counterexample: a chunk with label "TEST" and kind byte 0 (Riff)
decodes successfully with an empty payload instead of failing with the
unsupported-chunk-kind error the claim asserts for Riff. -/
theorem chunk_kinds_c7_counterexample :
    read_chunk ⟨[84, 69, 83, 84, 0], 0⟩ =
      .ok (⟨[84, 69, 83, 84], .riff, []⟩, ⟨[84, 69, 83, 84, 0], 5⟩) ∧
    ∀ e, read_chunk ⟨[84, 69, 83, 84, 0], 0⟩ ≠ .error e := by
  refine ⟨by decide, ?_⟩
  intro e h
  rw [show read_chunk ⟨[84, 69, 83, 84, 0], 0⟩ =
    .ok (⟨[84, 69, 83, 84], .riff, []⟩, ⟨[84, 69, 83, 84, 0], 5⟩) from by decide] at h
  exact Except.noConfusion h

theorem chunk_kinds_c7_witness :
    read_chunk ⟨[65, 66, 67, 68, 7], 0⟩ = .error .unknownChunkKind ∧
    read_chunk ⟨[65, 66, 67, 68, 1], 0⟩ = .error .unsupportedChunkKind ∧
    read_chunk ⟨[65, 66, 67, 68, 2], 0⟩ = .error .unsupportedChunkKind ∧
    read_chunk ⟨[65, 66, 67, 68, 0], 0⟩ =
      .ok (⟨[65, 66, 67, 68], .riff, handle_riff⟩, ⟨[65, 66, 67, 68, 0], 5⟩) := by
  have h := chunk_kinds_c7_amended
  exact ⟨h.1 65 66 67 68 7 [] (by omega), h.2.1 65 66 67 68 [],
    h.2.2.1 65 66 67 68 [], h.2.2.2 65 66 67 68 [] (by decide)⟩

/-- Claim C5 (code bug demonstration): the header stream carries the nested
field list of struct field "s" -- itself containing a struct field "a" --
followed by the nested list belonging to "a". `read_subtables` performs a
single flat `read_table_entries` pass per struct entry (stopping at
position 4), discards the parsed sublist, and returns only the parent's
own entries, so the nested schema for "a" is neither parsed recursively
nor attached; and `handle_table` never calls `read_subtables` at all: it
returns the raw header block bytes, leaving the nested field lists after
the header block unconsumed. -/
theorem subtables_c5_bug :
    read_subtables ⟨[11, 1, 97, 0, 1, 1, 98, 0], 0⟩ [([115], (Value.struct, false))] =
      .ok (TableType.hashMap [([115], (Value.struct, false))],
        ⟨[11, 1, 97, 0, 1, 1, 98, 0], 4⟩) ∧
    handle_table ⟨[4, 11, 1, 97, 0, 9, 9], 0⟩ =
      .ok ([11, 1, 97, 0], ⟨[4, 11, 1, 97, 0, 9, 9], 5⟩) :=
  ⟨by decide, by decide⟩

theorem gamma_roundtrip_c1_witness :
    DataReader.read_gamma ⟨[129, 44, 7], 0⟩ = .ok ((300, 2), ⟨[129, 44, 7], 2⟩) ∧
    DataReader.read_gamma ⟨[240, 255, 255, 255, 255], 0⟩ =
      .ok ((4294967295, 5), ⟨[240, 255, 255, 255, 255], 5⟩) ∧
    (encode_gamma 300).length = 2 ∧ (encode_gamma 4294967295).length = 5 := by
  have h1 := gamma_roundtrip_c1 300 [7] (by norm_num)
  have h2 := gamma_roundtrip_c1 4294967295 [] (by norm_num)
  exact ⟨h1.1, h2.1, h1.2.1, h2.2.1⟩
